import Mathlib

/-!
Shallow embedding of the core of `petroflow` (gazprom-neft/petroflow):
`well_logs/core/well_segment.py` and `petroflow/src/utils.py`.

Conventions of the embedding:
* python floats describing depths (meters) are modelled as rationals;
* a pandas dataframe indexed by `DEPTH` is a list of `Row`s (depth key plus
  the remaining column values); a dataframe indexed by `(DEPTH_FROM, DEPTH_TO)`
  is a list of `FdtdRow`s;
* a numpy image buffer of shape `(h, w, 3)` is a list of `h` pixel rows, each
  a list of `w` cells; a cell is `Option ℚ` where `none` stands for the NaN
  missing sentinel and `some v` abstracts one RGB pixel;
* fallible python code returns `Except`;
* `int(round(x))` is `pyRound` (python's banker's rounding, half to even).
-/

/-- One row of a depth-indexed dataframe: the `DEPTH` index value plus the
remaining column values. -/
structure Row where
  depth : ℚ
  vals : List ℚ
deriving DecidableEq

/-- One row of an interval-indexed dataframe: the `(DEPTH_FROM, DEPTH_TO)`
index pair plus the remaining column values. -/
structure FdtdRow where
  depth_from : ℚ
  depth_to : ℚ
  vals : List ℚ
deriving DecidableEq

/-- One row of the `_core_lithology_deltas` dataframe produced by matching:
a lithology interval together with its depth shift `DELTA`. -/
structure DeltaRow where
  depth_from : ℚ
  depth_to : ℚ
  delta : ℚ
deriving DecidableEq

/-- An image buffer: a list of pixel rows; each cell is `none` (NaN missing
sentinel) or `some v` (a sampled color). -/
abbrev Buffer := List (List (Option ℚ))

/-- One physical core sample: its depth interval and the two modality images
(`None` in python, i.e. a missing file, is `none`). File-path resolution and
image decoding are external I/O; a sample carries its decoded images directly. -/
structure Sample where
  depth_from : ℚ
  depth_to : ℚ
  dl_img : Option Buffer
  uv_img : Option Buffer
deriving DecidableEq

/-- Python's `round` on a rational: round half to even (banker's rounding). -/
def pyRound (q : ℚ) : ℤ :=
  if q - ⌊q⌋ < 1/2 then ⌊q⌋
  else if 1/2 < q - ⌊q⌋ then ⌊q⌋ + 1
  else if ⌊q⌋ % 2 = 0 then ⌊q⌋ else ⌊q⌋ + 1

/-- `WellSegment._meters_to_pixels`: `int(round(meters * 100)) * pixels_per_cm`. -/
def meters_to_pixels (pixels_per_cm : ℤ) (meters : ℚ) : ℤ :=
  pyRound (meters * 100) * pixels_per_cm

/-- Python sequence slicing `l[start:stop]` (possibly negative indices). -/
def pySlice (l : List α) (start stop : ℤ) : List α :=
  let n : ℤ := l.length
  let s := if start < 0 then max (n + start) 0 else min start n
  let e := if stop < 0 then max (n + stop) 0 else min stop n
  (l.take e.toNat).drop s.toNat

/-- `WellSegment._filter_depth_df`: `df[self.depth_from:self.depth_to]`.
Pandas label-based slicing on a monotonically increasing numeric index keeps
exactly the rows whose label lies in the closed interval
`[depth_from, depth_to]` (both endpoints included). -/
def filter_depth_df (depth_from depth_to : ℚ) (df : List Row) : List Row :=
  df.filter (fun r => decide (depth_from ≤ r.depth) && decide (r.depth ≤ depth_to))

/-- `WellSegment._load_depth_df`: parse (external I/O, the parsed rows are the
argument), set `DEPTH` as index, then `_filter_depth_df`. -/
def load_depth_df (depth_from depth_to : ℚ) (df : List Row) : List Row :=
  filter_depth_df depth_from depth_to df

/-- `WellSegment._filter_fdtd_df`: keep rows whose interval intersects the
segment: `(depth_from_i < self.depth_to) & (self.depth_from < depth_to_i)`. -/
def filter_fdtd_df (depth_from depth_to : ℚ) (df : List FdtdRow) : List FdtdRow :=
  df.filter (fun r => decide (r.depth_from < depth_to) && decide (depth_from < r.depth_to))

/-- `WellSegment._load_fdtd_df`: parse, set the interval index, then filter. -/
def load_fdtd_df (depth_from depth_to : ℚ) (df : List FdtdRow) : List FdtdRow :=
  filter_fdtd_df depth_from depth_to df

/-- The state of a `WellSegment`: its depth range, core image geometry, the
lazily loaded datasets (`none` = not loaded yet) and the two core image
buffers. -/
@[ext]
structure WellSegment where
  depth_from : ℚ
  depth_to : ℚ
  core_width : ℤ
  pixels_per_cm : ℤ
  logs : Option (List Row)
  core_properties : Option (List Row)
  core_logs : Option (List Row)
  layers : Option (List FdtdRow)
  boring_intervals : Option (List FdtdRow)
  core_lithology : Option (List FdtdRow)
  samples : Option (List FdtdRow)
  inclination : Option (List Row)
  core_dl : Option Buffer
  core_uv : Option Buffer
deriving DecidableEq

/-- `WellSegment.__getitem__` with a slice key: shallow-copy, set the new
depth bounds, re-filter every loaded depth-indexed and interval-indexed
dataset (unloaded ones stay unloaded), and, when both core image buffers are
built, crop them by the pixel offsets of the new bounds relative to the old
`depth_from`. No validation of the requested bounds is performed. -/
def WellSegment.getitem (s : WellSegment) (new_from new_to : ℚ) : WellSegment :=
  let start_pos := meters_to_pixels s.pixels_per_cm (new_from - s.depth_from)
  let stop_pos := meters_to_pixels s.pixels_per_cm (new_to - s.depth_from)
  { s with
    depth_from := new_from
    depth_to := new_to
    logs := s.logs.map (filter_depth_df new_from new_to)
    core_properties := s.core_properties.map (filter_depth_df new_from new_to)
    core_logs := s.core_logs.map (filter_depth_df new_from new_to)
    layers := s.layers.map (filter_fdtd_df new_from new_to)
    boring_intervals := s.boring_intervals.map (filter_fdtd_df new_from new_to)
    core_lithology := s.core_lithology.map (filter_fdtd_df new_from new_to)
    samples := s.samples.map (filter_fdtd_df new_from new_to)
    core_dl := if s.core_dl.isSome ∧ s.core_uv.isSome
      then s.core_dl.map (fun dl => pySlice dl start_pos stop_pos) else s.core_dl
    core_uv := if s.core_dl.isSome ∧ s.core_uv.isSome
      then s.core_uv.map (fun uv => pySlice uv start_pos stop_pos) else s.core_uv }

/-- Membership in the depth filter forces the closed-interval bounds. -/
theorem mem_filter_depth_df {a b : ℚ} {df : List Row} {r : Row}
    (h : r ∈ filter_depth_df a b df) : a ≤ r.depth ∧ r.depth ≤ b := by
  have := List.of_mem_filter h
  simpa using this

/-- C1 (amended): after loading via `_load_depth_df` or re-filtering via
`__getitem__`, every row of a depth-indexed dataset has its depth in the
CLOSED interval `[depth_from, depth_to]`: pandas label slicing is inclusive
at both ends, so a row at exactly `depth_to` is kept. -/
theorem depth_filter_bounds :
    (∀ (a b : ℚ) (df : List Row) (r : Row),
      r ∈ load_depth_df a b df → a ≤ r.depth ∧ r.depth ≤ b) ∧
    (∀ (s : WellSegment) (a b : ℚ) (rows : List Row) (r : Row),
      (s.getitem a b).logs = some rows → r ∈ rows → a ≤ r.depth ∧ r.depth ≤ b) := by
  constructor
  · intro a b df r h
    exact mem_filter_depth_df h
  · intro s a b rows r hrows hr
    simp only [WellSegment.getitem, Option.map_eq_some'] at hrows
    obtain ⟨orig, _, horig⟩ := hrows
    exact mem_filter_depth_df (horig ▸ hr)

/-- Witness for C1: a concrete row inside the filtered interval. -/
theorem depth_filter_bounds_witness :
    (0 : ℚ) ≤ (3 : ℚ) ∧ (3 : ℚ) ≤ (5 : ℚ) :=
  depth_filter_bounds.1 0 5 [⟨3, []⟩] ⟨3, []⟩ (by decide)

/-- C1 counterexample: the claim says every kept row has depth strictly below
`depth_to`; but `_filter_depth_df` keeps a row whose depth equals `depth_to`. -/
theorem depth_filter_keeps_right_endpoint :
    ¬ (∀ r ∈ load_depth_df 0 5 [⟨5, []⟩], r.depth < 5) := by
  intro h
  have := h ⟨5, []⟩ (by decide)
  simp at this

/-- `WellSegment._get_full_name`: the result of globbing `name.*` in the
segment's directory is the argument; zero matches is `FileNotFoundError`,
more than one is `OSError`, otherwise the unique match is returned. -/
inductive ResolveError where
  | fileNotFound
  | severalFiles
deriving DecidableEq

/-- `WellSegment._get_full_name` over the list of glob matches. -/
def get_full_name (files : List String) : Except ResolveError String :=
  match files with
  | [] => .error .fileNotFound
  | [f] => .ok f
  | _ :: _ :: _ => .error .severalFiles

/-- C8 (amended): `__getitem__` performs no bounds validation: slicing
succeeds for every requested pair of bounds, simply installing them as the
new `depth_from`/`depth_to` and re-filtering the loaded datasets. -/
theorem getitem_no_bounds_check (s : WellSegment) (new_from new_to : ℚ) :
    (s.getitem new_from new_to).depth_from = new_from ∧
    (s.getitem new_from new_to).depth_to = new_to := by
  constructor <;> rfl

/-- C9: file resolution returns the unique match, fails with a not-found
error on zero matches and with a distinct conflicting-source error on
several matches. -/
theorem get_full_name_trichotomy (files : List String) :
    (files = [] → get_full_name files = .error .fileNotFound) ∧
    (∀ f, files = [f] → get_full_name files = .ok f) ∧
    (∀ f₁ f₂ rest, files = f₁ :: f₂ :: rest →
      get_full_name files = .error .severalFiles) := by
  refine ⟨fun h => ?_, fun f h => ?_, fun f₁ f₂ rest h => ?_⟩ <;>
    subst h <;> rfl

/-- Witness for C9: the three branches at concrete file lists. -/
theorem get_full_name_trichotomy_witness :
    get_full_name [] = .error .fileNotFound ∧
    get_full_name ["logs.las"] = .ok "logs.las" ∧
    get_full_name ["logs.las", "logs.csv"] = .error .severalFiles :=
  ⟨(get_full_name_trichotomy []).1 rfl,
   (get_full_name_trichotomy ["logs.las"]).2.1 "logs.las" rfl,
   (get_full_name_trichotomy ["logs.las", "logs.csv"]).2.2 "logs.las" "logs.csv" [] rfl⟩

/-- Rounding an integer is the identity. -/
theorem pyRound_intCast (n : ℤ) : pyRound ((n : ℚ)) = n := by
  unfold pyRound
  norm_num

/-- Any integer lower bound of `q` bounds `pyRound q` as well. -/
theorem le_pyRound_of_le {n : ℤ} {q : ℚ} (h : (n : ℚ) ≤ q) : n ≤ pyRound q := by
  have hf : n ≤ ⌊q⌋ := Int.le_floor.mpr h
  unfold pyRound
  split_ifs <;> omega

/-- For nonnegative indices, python slicing is plain take-then-drop. -/
theorem pySlice_of_nonneg {start stop : ℤ} (l : List α)
    (hs : 0 ≤ start) (he : 0 ≤ stop) :
    pySlice l start stop = (l.take stop.toNat).drop start.toNat := by
  simp only [pySlice]
  rw [if_neg (by omega), if_neg (by omega)]
  have htake : l.take (min stop (l.length : ℤ)).toNat = l.take stop.toNat := by
    rcases le_total stop (l.length : ℤ) with h | h
    · rw [min_eq_left h]
    · rw [min_eq_right h, List.take_of_length_le (by omega),
        List.take_of_length_le (by omega)]
  rw [htake]
  rcases le_total start (l.length : ℤ) with h | h
  · rw [min_eq_left h]
  · rw [min_eq_right h, List.drop_eq_nil_of_le (by simp only [List.length_take]; omega),
      List.drop_eq_nil_of_le (by simp only [List.length_take]; omega)]

/-- Composition of take-then-drop windows (natural-number indices). -/
theorem take_drop_window_comp (l : List α) (S₁ E₁ S₂ E₂ : ℕ) (h : S₁ + E₂ ≤ E₁) :
    (((l.take E₁).drop S₁).take E₂).drop S₂ = (l.take (S₁ + E₂)).drop (S₁ + S₂) := by
  rw [List.drop_take, List.drop_drop, List.drop_take, List.take_take,
    List.drop_take]
  congr 1
  omega

/-- Composition of two python slices with nonnegative indices, the inner
window containing the outer one. -/
theorem pySlice_pySlice (l : List α) (s₁ e₁ s₂ e₂ : ℤ)
    (hs₁ : 0 ≤ s₁) (hs₂ : 0 ≤ s₂) (he₂ : 0 ≤ e₂) (h : s₁ + e₂ ≤ e₁) :
    pySlice (pySlice l s₁ e₁) s₂ e₂ = pySlice l (s₁ + s₂) (s₁ + e₂) := by
  have he₁ : 0 ≤ e₁ := by omega
  rw [pySlice_of_nonneg l hs₁ he₁, pySlice_of_nonneg _ hs₂ he₂,
    pySlice_of_nonneg l (by omega) (by omega)]
  rw [Int.toNat_add hs₁ hs₂, Int.toNat_add hs₁ he₂]
  exact take_drop_window_comp l _ _ _ _ (by omega)

/-- Re-filtering a depth-indexed dataframe with a sub-window equals filtering
with the sub-window directly. -/
theorem filter_depth_df_comp {a b c d : ℚ} (hac : a ≤ c) (hdb : d ≤ b)
    (df : List Row) :
    filter_depth_df c d (filter_depth_df a b df) = filter_depth_df c d df := by
  unfold filter_depth_df
  rw [List.filter_filter]
  refine List.filter_congr fun r _ => ?_
  by_cases h₁ : c ≤ r.depth
  · by_cases h₂ : r.depth ≤ d
    · simp [h₁, h₂, le_trans hac h₁, le_trans h₂ hdb]
    · simp [h₂]
  · simp [h₁]

/-- Re-filtering an interval-indexed dataframe with a sub-window equals
filtering with the sub-window directly. -/
theorem filter_fdtd_df_comp {a b c d : ℚ} (hac : a ≤ c) (hdb : d ≤ b)
    (df : List FdtdRow) :
    filter_fdtd_df c d (filter_fdtd_df a b df) = filter_fdtd_df c d df := by
  unfold filter_fdtd_df
  rw [List.filter_filter]
  refine List.filter_congr fun r _ => ?_
  by_cases h₁ : r.depth_from < d
  · by_cases h₂ : c < r.depth_to
    · simp [h₁, h₂, lt_of_lt_of_le h₁ hdb, lt_of_le_of_lt hac h₂]
    · simp [h₂]
  · simp [h₁]

/-- A rational that is a whole number of centimeters (depths are meters,
so `q * 100` is an integer). -/
def wholeCm (q : ℚ) : Prop :=
  ∃ n : ℤ, q * 100 = (n : ℚ)

/-- Composed crops of the core image, with whole-centimeter pixel offsets,
collapse to the direct crop. -/
theorem crop_window_comp (l : List α) (P n₀ na nc nd e₁ : ℤ)
    (hP : 0 ≤ P) (h₀a : n₀ ≤ na) (hanc : na ≤ nc) (hncd : nc ≤ nd)
    (he₁ : (nd - n₀) * P ≤ e₁) :
    pySlice (pySlice l ((na - n₀) * P) e₁) ((nc - na) * P) ((nd - na) * P) =
      pySlice l ((nc - n₀) * P) ((nd - n₀) * P) := by
  have hsum : (na - n₀) * P + (nd - na) * P = (nd - n₀) * P := by ring
  have := pySlice_pySlice l ((na - n₀) * P) e₁ ((nc - na) * P) ((nd - na) * P)
    (mul_nonneg (by omega) hP) (mul_nonneg (by omega) hP)
    (mul_nonneg (by omega) hP) (by omega)
  rw [this]
  have h₁ : (na - n₀) * P + (nc - na) * P = (nc - n₀) * P := by ring
  rw [h₁, hsum]

/-- The depth-filter composition, lifted to a lazily loaded dataset. -/
theorem map_filter_depth_comp {a b c d : ℚ} (hac : a ≤ c) (hdb : d ≤ b)
    (o : Option (List Row)) :
    Option.map (filter_depth_df c d) (Option.map (filter_depth_df a b) o) =
      Option.map (filter_depth_df c d) o := by
  cases o with
  | none => rfl
  | some df => simp [filter_depth_df_comp hac hdb]

/-- The interval-filter composition, lifted to a lazily loaded dataset. -/
theorem map_filter_fdtd_comp {a b c d : ℚ} (hac : a ≤ c) (hdb : d ≤ b)
    (o : Option (List FdtdRow)) :
    Option.map (filter_fdtd_df c d) (Option.map (filter_fdtd_df a b) o) =
      Option.map (filter_fdtd_df c d) o := by
  cases o with
  | none => rfl
  | some df => simp [filter_fdtd_df_comp hac hdb]

/-- With whole-centimeter bounds the pixel offset is exact. -/
theorem meters_to_pixels_of_whole {P : ℤ} {x y : ℚ} {nx ny : ℤ}
    (hx : x * 100 = (nx : ℚ)) (hy : y * 100 = (ny : ℚ)) :
    meters_to_pixels P (x - y) = (nx - ny) * P := by
  unfold meters_to_pixels
  have h : (x - y) * 100 = ((nx - ny : ℤ) : ℚ) := by
    push_cast
    rw [← hx, ← hy]
    ring
  rw [h, pyRound_intCast]

/-- C2 (amended): for bounds `a ≤ c ≤ d ≤ b` inside the segment's range,
slicing twice equals slicing once for every depth-indexed and
interval-indexed dataset unconditionally; provided additionally that the
segment's `depth_from` and the bounds `a`, `c`, `d` are whole numbers of
centimeters (so the pixel offset `int(round(m * 100))` is additive), the
cropped core image buffers agree as well and the whole segments are equal. -/
theorem slice_comp_of_whole_cm (s : WellSegment) (a b c d : ℚ)
    (hac : a ≤ c) (hcd : c ≤ d) (hdb : d ≤ b)
    (hfa : s.depth_from ≤ a) (hppc : 0 ≤ s.pixels_per_cm)
    (w₀ : wholeCm s.depth_from) (wa : wholeCm a) (wc : wholeCm c)
    (wd : wholeCm d) :
    (s.getitem a b).getitem c d = s.getitem c d := by
  obtain ⟨n₀, h₀⟩ := w₀
  obtain ⟨na, hha⟩ := wa
  obtain ⟨nc, hhc⟩ := wc
  obtain ⟨nd, hhd⟩ := wd
  have h₀a : n₀ ≤ na := by
    have : s.depth_from * 100 ≤ a * 100 := by linarith
    rw [h₀, hha] at this
    exact_mod_cast this
  have hanc : na ≤ nc := by
    have : a * 100 ≤ c * 100 := by linarith
    rw [hha, hhc] at this
    exact_mod_cast this
  have hncd : nc ≤ nd := by
    have : c * 100 ≤ d * 100 := by linarith
    rw [hhc, hhd] at this
    exact_mod_cast this
  have he₁ : (nd - n₀) * s.pixels_per_cm ≤
      meters_to_pixels s.pixels_per_cm (b - s.depth_from) := by
    unfold meters_to_pixels
    refine mul_le_mul_of_nonneg_right ?_ hppc
    refine le_pyRound_of_le ?_
    push_cast
    rw [← h₀, ← hhd]
    nlinarith [hdb]
  rcases hdl : s.core_dl with _ | dl <;> rcases huv : s.core_uv with _ | uv <;>
  · ext <;>
      simp [WellSegment.getitem, hdl, huv,
        map_filter_depth_comp hac hdb, map_filter_fdtd_comp hac hdb,
        meters_to_pixels_of_whole hha h₀, meters_to_pixels_of_whole hhc hha,
        meters_to_pixels_of_whole hhd hha, meters_to_pixels_of_whole hhc h₀,
        meters_to_pixels_of_whole hhd h₀,
        crop_window_comp _ s.pixels_per_cm n₀ na nc nd _ hppc h₀a hanc hncd he₁]

/-- A concrete segment over `[0 m, 0.02 m]` (2 cm) with built core images of
two pixel rows, used to exercise slicing. -/
def fracSeg : WellSegment :=
  { depth_from := 0
    depth_to := 1/50
    core_width := 1
    pixels_per_cm := 1
    logs := none
    core_properties := none
    core_logs := none
    layers := none
    boring_intervals := none
    core_lithology := none
    samples := none
    inclination := none
    core_dl := some [[some 0], [some 1]]
    core_uv := some [[some 0], [some 1]] }

/-- C2 counterexample: with fractional-centimeter bounds
`a = 0.003, c = 0.007, d = b = 0.02` (meters), all inside the segment's
range and with `a ≤ c ≤ d ≤ b`, the twice-sliced core image buffer differs
from the directly sliced one: the pixel offsets `int(round(m * 100))` are not
additive (`round(0.3) + round(0.4) = 0` but `round(0.7) = 1`). -/
theorem slice_comp_fails_fractional_cm :
    ((fracSeg.getitem (3/1000) (1/50)).getitem (7/1000) (1/50)).core_dl ≠
      (fracSeg.getitem (7/1000) (1/50)).core_dl := by
  norm_num [WellSegment.getitem, fracSeg, meters_to_pixels, pyRound, pySlice]
  decide

/-- A concrete segment over `[0 m, 0.03 m]` with whole-centimeter geometry. -/
def wholeSeg : WellSegment :=
  { depth_from := 0
    depth_to := 3/100
    core_width := 1
    pixels_per_cm := 1
    logs := some [⟨3/200, [7]⟩]
    core_properties := none
    core_logs := none
    layers := some [⟨0, 3/100, [1]⟩]
    boring_intervals := none
    core_lithology := none
    samples := none
    inclination := none
    core_dl := some [[some 0], [some 1], [some 2]]
    core_uv := some [[some 3], [some 4], [some 5]] }

/-- Witness for C2: slicing `[0.01, 0.03]` then `[0.01, 0.02]` equals slicing
`[0.01, 0.02]` directly, all bounds being whole centimeters. -/
theorem slice_comp_of_whole_cm_witness :
    (wholeSeg.getitem (1/100) (3/100)).getitem (1/100) (2/100) =
      wholeSeg.getitem (1/100) (2/100) :=
  slice_comp_of_whole_cm wholeSeg (1/100) (3/100) (1/100) (2/100)
    (by norm_num) (by norm_num) (by norm_num) (by norm_num [wholeSeg])
    (by norm_num [wholeSeg]) ⟨0, by norm_num [wholeSeg]⟩ ⟨1, by norm_num⟩
    ⟨1, by norm_num⟩ ⟨2, by norm_num⟩

/-- C8 counterexample: slicing `fracSeg` (depth range `[0, 0.02]`) with the
out-of-range bounds `[0.1, 0.2]` succeeds and installs them, although the
claim demands a range-violation failure. -/
theorem getitem_out_of_range_succeeds :
    (fracSeg.getitem (1/10) (2/10)).depth_from = 1/10 ∧
    (fracSeg.getitem (1/10) (2/10)).depth_to = 2/10 ∧
    ¬ (fracSeg.depth_from ≤ 1/10 ∧ (1/10 : ℚ) ≤ 2/10 ∧
        (2/10 : ℚ) ≤ fracSeg.depth_to) := by
  refine ⟨rfl, rfl, ?_⟩
  norm_num [fracSeg]

/-- `WellSegment._apply_matching`, per dataset: cross-join the dataframe with
the lithology deltas (`merge` on the constant `key` column), keep the pairs
whose `DEPTH` lies in `[DEPTH_FROM, DEPTH_TO)`, add `DELTA` to `DEPTH`, and
project back to the original columns. -/
def apply_matching_df (deltas : List DeltaRow) (df : List Row) : List Row :=
  ((df.flatMap (fun r => deltas.map (fun e => (r, e)))).filter
    (fun p => decide (p.2.depth_from ≤ p.1.depth) && decide (p.1.depth < p.2.depth_to))).map
    (fun p => Row.mk (p.1.depth + p.2.delta) p.1.vals)

/-- `WellSegment._apply_matching`: rewrite the depth index of the two
core-derived depth-indexed datasets. Dataset loading is external I/O, so the
loaded case (`some`) is transformed; an unloaded dataset would first be
loaded and then transformed the same way. -/
def WellSegment.apply_matching (s : WellSegment) (deltas : List DeltaRow) : WellSegment :=
  { s with
    core_logs := s.core_logs.map (apply_matching_df deltas)
    core_properties := s.core_properties.map (apply_matching_df deltas) }

/-- Normal form of `apply_matching_df`: per input row, one output row for
each delta interval containing its depth. -/
theorem apply_matching_df_eq_flatMap (deltas : List DeltaRow) (df : List Row) :
    apply_matching_df deltas df = df.flatMap (fun r =>
      (deltas.filter (fun e =>
        decide (e.depth_from ≤ r.depth) && decide (r.depth < e.depth_to))).map
        (fun e => Row.mk (r.depth + e.delta) r.vals)) := by
  unfold apply_matching_df
  rw [List.filter_flatMap, List.map_flatMap]
  congr 1
  funext r
  rw [List.filter_map, List.map_map]
  rfl

/-- A shifted copy of a covered row is produced by `_apply_matching`. -/
theorem mem_apply_matching_df {deltas : List DeltaRow} {df : List Row}
    {r : Row} {e : DeltaRow} (hr : r ∈ df) (he : e ∈ deltas)
    (h₁ : e.depth_from ≤ r.depth) (h₂ : r.depth < e.depth_to) :
    Row.mk (r.depth + e.delta) r.vals ∈ apply_matching_df deltas df := by
  rw [apply_matching_df_eq_flatMap]
  simp only [List.mem_flatMap, List.mem_map, List.mem_filter]
  exact ⟨r, hr, e, ⟨he, by simp [h₁, h₂]⟩, rfl⟩

/-- A concrete segment with loaded core-derived datasets, used to exercise
matching. -/
def matchSeg : WellSegment :=
  { depth_from := 0
    depth_to := 20
    core_width := 10
    pixels_per_cm := 5
    logs := none
    core_properties := some [⟨5, [2]⟩]
    core_logs := some [⟨5, [1]⟩]
    layers := none
    boring_intervals := none
    core_lithology := none
    samples := none
    inclination := none
    core_dl := none
    core_uv := none }

/-- C3: after `_apply_matching`, every row of `core_logs` and
`core_properties` whose original depth `d` lies in a lithology delta interval
`[DEPTH_FROM, DEPTH_TO)` with shift `DELTA` appears in the resulting dataset
re-indexed at `d + DELTA`, with the non-depth column values unchanged. -/
theorem apply_matching_shifts_covered_rows (s : WellSegment)
    (deltas : List DeltaRow) (r : Row) (e : DeltaRow) (he : e ∈ deltas)
    (h₁ : e.depth_from ≤ r.depth) (h₂ : r.depth < e.depth_to) :
    (∀ rows, s.core_logs = some rows → r ∈ rows →
      ∃ out, (s.apply_matching deltas).core_logs = some out ∧
        Row.mk (r.depth + e.delta) r.vals ∈ out) ∧
    (∀ rows, s.core_properties = some rows → r ∈ rows →
      ∃ out, (s.apply_matching deltas).core_properties = some out ∧
        Row.mk (r.depth + e.delta) r.vals ∈ out) := by
  constructor <;>
  · intro rows hrows hr
    refine ⟨apply_matching_df deltas rows, ?_, mem_apply_matching_df hr he h₁ h₂⟩
    simp [WellSegment.apply_matching, hrows]

/-- Witness for C3: the row at depth 5 of `matchSeg`, covered by the delta
interval `[0, 10)` with shift 2, reappears at depth 7 in both datasets. -/
theorem apply_matching_shifts_covered_rows_witness :
    (∃ out, (matchSeg.apply_matching [⟨0, 10, 2⟩]).core_logs = some out ∧
      Row.mk ((5 : ℚ) + 2) [1] ∈ out) ∧
    (∃ out, (matchSeg.apply_matching [⟨0, 10, 2⟩]).core_properties = some out ∧
      Row.mk ((5 : ℚ) + 2) [2] ∈ out) :=
  ⟨(apply_matching_shifts_covered_rows matchSeg [⟨0, 10, 2⟩] ⟨5, [1]⟩ ⟨0, 10, 2⟩
      (by simp) (by norm_num) (by norm_num)).1 [⟨5, [1]⟩] rfl (by simp),
   (apply_matching_shifts_covered_rows matchSeg [⟨0, 10, 2⟩] ⟨5, [2]⟩ ⟨0, 10, 2⟩
      (by simp) (by norm_num) (by norm_num)).2 [⟨5, [2]⟩] rfl (by simp)⟩

/-- Two lithology delta intervals that do not overlap. -/
def disjointDelta (e f : DeltaRow) : Prop :=
  e.depth_to ≤ f.depth_from ∨ f.depth_to ≤ e.depth_from

/-- Under pairwise disjointness, the delta interval containing a depth is
unique, and filtering for it yields exactly that interval. -/
theorem filter_covers_single {deltas : List DeltaRow}
    (hp : List.Pairwise disjointDelta deltas) {e : DeltaRow} (he : e ∈ deltas)
    {x : ℚ} (h₁ : e.depth_from ≤ x) (h₂ : x < e.depth_to) :
    deltas.filter (fun f => decide (f.depth_from ≤ x) && decide (x < f.depth_to)) = [e] := by
  induction deltas with
  | nil => cases he
  | cons hd tl ih =>
    obtain ⟨hdisj, htl⟩ := List.pairwise_cons.mp hp
    rcases List.mem_cons.mp he with rfl | he
    · rw [List.filter_cons_of_pos (by simp [h₁, h₂])]
      rw [List.filter_eq_nil_iff.mpr]
      intro f hf
      simp only [Bool.and_eq_true, decide_eq_true_eq, not_and, not_lt]
      intro hfx
      rcases hdisj f hf with h | h
      · linarith
      · linarith
    · rw [List.filter_cons_of_neg ?_, ih htl he]
      simp only [Bool.and_eq_true, decide_eq_true_eq, not_and, not_lt]
      intro hhx
      rcases hdisj e he with h | h
      · linarith
      · linarith

/-- C10: `_apply_matching` drops every row covered by no lithology delta
interval; and when the intervals are pairwise disjoint, a covered row yields
exactly one output row, shifted by its interval's delta. -/
theorem apply_matching_drop_and_unique (deltas : List DeltaRow)
    (df₁ df₂ : List Row) (r : Row) :
    ((∀ e ∈ deltas, ¬ (e.depth_from ≤ r.depth ∧ r.depth < e.depth_to)) →
      apply_matching_df deltas (df₁ ++ r :: df₂) =
        apply_matching_df deltas (df₁ ++ df₂)) ∧
    (List.Pairwise disjointDelta deltas →
      ∀ e ∈ deltas, e.depth_from ≤ r.depth → r.depth < e.depth_to →
        apply_matching_df deltas (df₁ ++ r :: df₂) =
          apply_matching_df deltas df₁ ++
            Row.mk (r.depth + e.delta) r.vals :: apply_matching_df deltas df₂) := by
  constructor
  · intro hnone
    simp only [apply_matching_df_eq_flatMap, List.flatMap_append, List.flatMap_cons]
    rw [List.filter_eq_nil_iff.mpr]
    · simp
    · intro f hf
      simp only [Bool.and_eq_true, decide_eq_true_eq]
      exact fun h => hnone f hf ⟨h.1, h.2⟩
  · intro hp e he h₁ h₂
    simp only [apply_matching_df_eq_flatMap, List.flatMap_append, List.flatMap_cons]
    rw [filter_covers_single hp he h₁ h₂]
    simp

/-- Witness for C10: with the single delta interval `[0, 1)` shifted by 5,
the uncovered row at depth 2 is dropped and the covered row at depth 0 maps
to exactly one row at depth 5. -/
theorem apply_matching_drop_and_unique_witness :
    apply_matching_df [⟨0, 1, 5⟩] ([] ++ ⟨2, []⟩ :: []) =
      apply_matching_df [⟨0, 1, 5⟩] ([] ++ []) ∧
    apply_matching_df [⟨0, 1, 5⟩] ([] ++ ⟨0, []⟩ :: []) =
      apply_matching_df [⟨0, 1, 5⟩] [] ++
        Row.mk ((0 : ℚ) + 5) [] :: apply_matching_df [⟨0, 1, 5⟩] [] :=
  ⟨(apply_matching_drop_and_unique [⟨0, 1, 5⟩] [] [] ⟨2, []⟩).1
      (by intro e he; simp at he; subst he; norm_num),
   (apply_matching_drop_and_unique [⟨0, 1, 5⟩] [] [] ⟨0, []⟩).2
      (by simp) ⟨0, 1, 5⟩ (by simp) (by norm_num) (by norm_num)⟩

/-- Modelled from the spec: the external image codec's resampler
(`PIL.Image.resize` with the LANCZOS filter). The core does not depend on
the particular filter, so nearest-neighbour sampling stands in for it; it is
faithful to the output shape (`height` rows of `width` cells). -/
def resizeImage (img : Buffer) (width height : ℕ) : Buffer :=
  (List.range height).map (fun i =>
    let srcRow := img.getD (i * img.length / height) []
    (List.range width).map (fun j => srcRow.getD (j * srcRow.length / width) none))

/-- `np.full((height, width, 3), np.nan)`: a buffer of missing sentinels. -/
def nanImage (height width : ℕ) : Buffer :=
  List.replicate height (List.replicate width none)

/-- Normalisation `img / 255` (NaN stays NaN, as in numpy). -/
def div255 (img : Buffer) : Buffer :=
  img.map (List.map (Option.map (fun v => v / 255)))

/-- `WellSegment._match_samples`, faithful to the source, including the typo
in the first condition, which tests `dl_img is not None` twice instead of
testing `uv_img`: with a present dl image and a missing uv image the first
branch is taken and `uv_img.resize` is called on `None`, raising
`AttributeError`. -/
def match_samples (dl_img uv_img : Option Buffer) (height width : ℕ) :
    Except String (Buffer × Buffer) :=
  if dl_img.isSome && dl_img.isSome then
    match dl_img, uv_img with
    | some d, some u => .ok (resizeImage d width height, resizeImage u width height)
    | _, _ => .error "AttributeError: NoneType object has no attribute resize"
  else if dl_img.isSome then
    match dl_img with
    | some d => .ok (resizeImage d width height, nanImage height width)
    | none => .error "AttributeError: NoneType object has no attribute resize"
  else
    match uv_img with
    | some u => .ok (nanImage height width, resizeImage u width height)
    | none => .error "AttributeError: NoneType object has no attribute resize"

/-- The numpy assignment `buf[pos:pos+len(img)] = img` (rows of equal width;
a slice shorter than the image cannot be broadcast and raises). -/
def pasteRows (buf : Buffer) (pos : ℕ) (img : Buffer) : Except String Buffer :=
  if pos + img.length ≤ buf.length then
    .ok (buf.take pos ++ img ++ buf.drop (pos + img.length))
  else
    .error "ValueError: could not broadcast input array"

/-- One iteration of the `load_core` sample loop: resize both modality
images via `_match_samples`, crop to the segment's depth range, and paste at
the sample's pixel offset. -/
def load_core_step (depth_from depth_to : ℚ) (pixels_per_cm : ℤ) (width : ℕ)
    (acc : Buffer × Buffer) (smp : Sample) : Except String (Buffer × Buffer) :=
  let sample_height := (meters_to_pixels pixels_per_cm (smp.depth_to - smp.depth_from)).toNat
  match match_samples smp.dl_img smp.uv_img sample_height width with
  | .error e => .error e
  | .ok (dl_img, uv_img) =>
    let top_crop := max 0 (meters_to_pixels pixels_per_cm (depth_from - smp.depth_from))
    let bottom_crop := (sample_height : ℤ) -
      max 0 (meters_to_pixels pixels_per_cm (smp.depth_to - depth_to))
    let dl_img := pySlice dl_img top_crop bottom_crop
    let uv_img := pySlice uv_img top_crop bottom_crop
    let insert_pos := (max 0 (meters_to_pixels pixels_per_cm
      (smp.depth_from - depth_from))).toNat
    match pasteRows acc.1 insert_pos dl_img with
    | .error e => .error e
    | .ok cdl =>
      match pasteRows acc.2 insert_pos uv_img with
      | .error e => .error e
      | .ok cuv => .ok (cdl, cuv)

/-- The per-sample loop of `load_core` (the `for` loop over `self.samples`,
aborting at the first raised exception). -/
def load_core_loop (depth_from depth_to : ℚ) (pixels_per_cm : ℤ) (width : ℕ) :
    List Sample → Buffer × Buffer → Except String (Buffer × Buffer)
  | [], acc => .ok acc
  | smp :: rest, acc =>
    match load_core_step depth_from depth_to pixels_per_cm width acc smp with
    | .error e => .error e
    | .ok acc' => load_core_loop depth_from depth_to pixels_per_cm width rest acc'

/-- `WellSegment.load_core`: allocate two NaN buffers spanning the segment,
run the per-sample loop, and normalise the results by 255. No validation of
overlap between samples is performed: a later sample simply overwrites the
pixel rows pasted by an earlier one. -/
def load_core (depth_from depth_to : ℚ) (core_width pixels_per_cm : ℤ)
    (samples : List Sample) : Except String (Buffer × Buffer) :=
  let height := (meters_to_pixels pixels_per_cm (depth_to - depth_from)).toNat
  let width := (core_width * pixels_per_cm).toNat
  match load_core_loop depth_from depth_to pixels_per_cm width samples
    (nanImage height width, nanImage height width) with
  | .error e => .error e
  | .ok (core_dl, core_uv) => .ok (div255 core_dl, div255 core_uv)

/-- `WellSegment._core_chunks`: compute the gaps between consecutive samples;
any negative gap (a sample starting above the previous sample's bottom) is a
`ValueError` naming the intersecting samples; otherwise merge flush samples
into contiguous chunks via the `TOP`/`BOTTOM` flags. -/
def core_chunks (samples : List Sample) : Except (List (ℚ × ℚ)) (List (ℚ × ℚ)) :=
  let pairs := samples.tail.zip samples
  let gaps := pairs.map (fun p => p.1.depth_from - p.2.depth_to)
  if gaps.any (fun g => decide (g < 0)) then
    .error (((pairs.filter (fun p => decide (p.1.depth_from - p.2.depth_to < 0))).map
      (fun p => (p.1.depth_from, p.1.depth_to))))
  else
    let tops : List ℚ := match samples with
      | [] => []
      | s₀ :: _ => s₀.depth_from ::
          ((pairs.filter (fun p => decide (p.1.depth_from - p.2.depth_to ≠ 0))).map
            (fun p => p.1.depth_from))
    let bottoms : List ℚ :=
      ((pairs.filter (fun p => decide (p.1.depth_from - p.2.depth_to ≠ 0))).map
        (fun p => p.2.depth_to)) ++
      (match samples.getLast? with
        | some sl => [sl.depth_to]
        | none => [])
    .ok (tops.zip bottoms)

/-- A one-pixel probe image. -/
def probeImg : Buffer := [[some 10]]

/-- C5 (code bug): `_match_samples` with only the dl image present crashes
with `AttributeError` instead of NaN-filling the uv buffer, because the
first condition tests `dl_img is not None` twice (a typo for `uv_img`), so
the both-present branch runs and calls `.resize` on `None`; the intended
dl-only branch (`elif dl_img is not None`) is unreachable. The symmetric
uv-only case behaves exactly as the claim states. -/
theorem match_samples_dl_only_crashes :
    match_samples (some probeImg) none 1 1 =
      .error "AttributeError: NoneType object has no attribute resize" ∧
    match_samples none (some probeImg) 1 1 =
      .ok (nanImage 1 1, resizeImage probeImg 1 1) :=
  ⟨rfl, rfl⟩

/-- C4 (amended): `_core_chunks` raises `ValueError` naming the intersecting
samples exactly when some sample starts above the previous sample's bottom
(`next.DEPTH_FROM < previous.DEPTH_TO`); `load_core`, however, performs no
overlap validation and builds composite buffers even from overlapping
samples (see the counterexample). -/
theorem core_chunks_overlap_policy (samples : List Sample) :
    (∃ p ∈ samples.tail.zip samples, p.1.depth_from < p.2.depth_to) ↔
      core_chunks samples = .error
        (((samples.tail.zip samples).filter
          (fun p => decide (p.1.depth_from - p.2.depth_to < 0))).map
          (fun p => (p.1.depth_from, p.1.depth_to))) := by
  have hcond : (((samples.tail.zip samples).map
      (fun p => p.1.depth_from - p.2.depth_to)).any (fun g => decide (g < 0)) = true) ↔
      (∃ p ∈ samples.tail.zip samples, p.1.depth_from < p.2.depth_to) := by
    simp only [List.any_eq_true, List.mem_map, decide_eq_true_eq, Prod.exists]
    constructor
    · rintro ⟨x, ⟨a, b, hab, rfl⟩, hneg⟩
      exact ⟨a, b, hab, sub_neg.mp hneg⟩
    · rintro ⟨a, b, hab, hlt⟩
      exact ⟨a.depth_from - b.depth_to, ⟨a, b, hab, rfl⟩, sub_neg.mpr hlt⟩
  constructor
  · intro h
    simp only [core_chunks]
    rw [if_pos (hcond.mpr h)]
  · intro h
    by_cases hc : ∃ p ∈ samples.tail.zip samples, p.1.depth_from < p.2.depth_to
    · exact hc
    · simp only [core_chunks] at h
      rw [if_neg (fun hx => hc (hcond.mp hx))] at h
      cases h

/-- A flat all-255 test image of two pixel rows. -/
def flatImg : Buffer := [[some 255], [some 255]]

/-- A sample spanning the whole test segment `[0, 0.02]`. -/
def ovSample₁ : Sample := ⟨0, 1/50, some flatImg, some flatImg⟩

/-- A sample overlapping `ovSample₁`: it starts at `0.01`, above the
previous sample's bottom `0.02`. -/
def ovSample₂ : Sample := ⟨1/100, 1/50, some flatImg, some flatImg⟩

/-- C4 counterexample: the claim says no composite core image buffer is
produced from overlapping samples, but `load_core` happily builds and
returns the buffers for two overlapping samples (the later one overwrites
the earlier one's pixel rows). -/
theorem load_core_accepts_overlapping_samples :
    ovSample₂.depth_from < ovSample₁.depth_to ∧
    load_core 0 (1/50) 1 1 [ovSample₁, ovSample₂] =
      .ok ([[some 1], [some 1]], [[some 1], [some 1]]) := by
  constructor
  · norm_num [ovSample₁, ovSample₂]
  · norm_num [load_core, load_core_loop, load_core_step, match_samples,
      resizeImage, nanImage, div255, pasteRows, pySlice, meters_to_pixels,
      pyRound, ovSample₁, ovSample₂, flatImg, List.range_succ]
    norm_num [show (2:ℤ).toNat = 2 from rfl, List.range_succ]

/-- Value of a run of decimal digits, most significant first. -/
def digitsToNat (ds : List Char) : ℕ :=
  ds.foldl (fun a c => 10 * a + (c.toNat - Char.toNat '0')) 0

/-- Value of a mantissa with integer part `ip` and fractional digits `fs`. -/
def fracVal (ip : ℕ) (fs : List Char) : ℚ :=
  (ip : ℚ) + (digitsToNat fs : ℚ) / ((10 : ℚ) ^ fs.length)

/-- Parser for the unsigned mantissa of the depth grammar, the regex group
`(\d+(\.\d*)?|\.\d+)`: returns its value and the unconsumed characters. -/
def parseMantissa (cs : List Char) : Option (ℚ × List Char) :=
  let ds := cs.takeWhile Char.isDigit
  let rest := cs.dropWhile Char.isDigit
  if ds.isEmpty then
    match rest with
    | '.' :: r₂ =>
      let fs := r₂.takeWhile Char.isDigit
      if fs.isEmpty then none
      else some (fracVal 0 fs, r₂.dropWhile Char.isDigit)
    | _ => none
  else
    match rest with
    | '.' :: r₂ =>
      let fs := r₂.takeWhile Char.isDigit
      some (fracVal (digitsToNat ds) fs, r₂.dropWhile Char.isDigit)
    | _ => some ((digitsToNat ds : ℚ), rest)

/-- Parser for the optional exponent, the regex group `([eE][-+]?\d+)?`:
when the exponent is malformed the regex backtracks to the empty exponent,
leaving the input untouched. -/
def parseExpOpt (cs : List Char) : ℤ × List Char :=
  match cs with
  | c :: r =>
    if c = 'e' ∨ c = 'E' then
      let signAndRest : ℤ × List Char :=
        match r with
        | '+' :: t => (1, t)
        | '-' :: t => (-1, t)
        | _ => (1, r)
      let ds := signAndRest.2.takeWhile Char.isDigit
      if ds.isEmpty then (0, cs)
      else (signAndRest.1 * (digitsToNat ds : ℤ), signAndRest.2.dropWhile Char.isDigit)
    else (0, cs)
  | [] => (0, [])

/-- The regex `fullmatch` of
`(?P<value>[-+]?(\d+(\.\d*)?|\.\d+)([eE][-+]?\d+)?)(?P<units>[a-zA-Z]+)`:
the depth value and the unit suffix, or `none` when the string does not
match. Since the exponent must contain a digit and the units are pure
letters, the greedy decomposition is the unique one. -/
def depthMatch (s : String) : Option (ℚ × String) :=
  let cs := s.toList
  let signAndRest : ℚ × List Char :=
    match cs with
    | '+' :: r => (1, r)
    | '-' :: r => (-1, r)
    | _ => (1, cs)
  match parseMantissa signAndRest.2 with
  | none => none
  | some (m, rest) =>
    let expAndRest := parseExpOpt rest
    if expAndRest.2.isEmpty || ! expAndRest.2.all Char.isAlpha then none
    else some (signAndRest.1 * m * (10 : ℚ) ^ expAndRest.1,
      String.mk expAndRest.2)

/-- Modelled from the spec: the external unit registry (`pint`
`UNIT_REGISTRY(units).to("cm")`), exposing the centimeter conversion factor
of common length units; an unknown unit or one not convertible to a length
fails. -/
def unitToCm : String → Option ℚ
  | "cm" => some 1
  | "m" => some 100
  | "mm" => some (1/10)
  | "km" => some 100000
  | "ft" => some (3048/100)
  | "in" => some (254/100)
  | _ => none

/-- `parse_depth` of `petroflow/src/utils.py` on a string input: match the
`<value><units>` grammar, convert the value to centimeters via the unit
registry, keep it only if it is a whole number (`float.is_integer` followed
by the `int` type check), and, when `check_positive` is set, require it to
be positive. -/
def parse_depth (s : String) (check_positive : Bool) : Except String ℤ :=
  match depthMatch s with
  | none => .error "Depth/length must be specified in a <value><units> format"
  | some (v, units) =>
    match unitToCm units with
    | none => .error "UndefinedUnitError or DimensionalityError"
    | some f =>
      let depth := v * f
      if depth.den = 1 then
        if check_positive && decide (depth.num ≤ 0) then
          .error "Depth/length must be positive"
        else .ok depth.num
      else .error "Depth/length must have int type"

/-- C6 counterexample: the claim says `parse_depth "152.4cm"` returns 152;
it does not return `.ok 152` (it raises instead). -/
theorem parse_depth_152_4cm_not_152 :
    parse_depth "152.4cm" false ≠ .ok 152 := by
  have h : depthMatch "152.4cm" =
      some ((1 : ℚ) * fracVal 152 ['4'] * (10:ℚ)^(0:ℤ), "cm") := rfl
  have h4 : digitsToNat ['4'] = 4 := rfl
  simp only [parse_depth, h, unitToCm]
  norm_num [fracVal, h4]
  intro hx
  cases hx

/-- C6 (amended): `parse_depth "152.4cm"` raises `ValueError` ("must have
int type"): 152.4 is not a whole number of centimeters, so the converted
value never becomes an `int`. A whole-centimeter string such as `"152cm"`
does return 152. -/
theorem parse_depth_152_4cm_raises :
    parse_depth "152.4cm" false = .error "Depth/length must have int type" ∧
    parse_depth "152cm" false = .ok 152 := by
  constructor
  · have h : depthMatch "152.4cm" =
        some ((1 : ℚ) * fracVal 152 ['4'] * (10:ℚ)^(0:ℤ), "cm") := rfl
    have h4 : digitsToNat ['4'] = 4 := rfl
    simp only [parse_depth, h, unitToCm]
    norm_num [fracVal, h4]
  · have h : depthMatch "152cm" =
        some ((1 : ℚ) * ((152 : ℕ) : ℚ) * (10:ℚ)^(0:ℤ), "cm") := rfl
    simp only [parse_depth, h, unitToCm]
    norm_num

/-- C7: for a string input, `parse_depth` succeeds exactly when the string
matches the `<value><units>` grammar, the unit converts to a length in
centimeters, the converted value is a whole number of centimeters, and (when
`check_positive` is set) the value is positive; the returned integer is the
depth in centimeters. -/
theorem parse_depth_ok_iff (s : String) (cp : Bool) :
    ((∃ d, parse_depth s cp = .ok d) ↔
      ∃ v u f, depthMatch s = some (v, u) ∧ unitToCm u = some f ∧
        (v * f).den = 1 ∧ (cp = true → 0 < (v * f).num)) ∧
    (∀ d, parse_depth s cp = .ok d →
      ∃ v u f, depthMatch s = some (v, u) ∧ unitToCm u = some f ∧
        (d : ℚ) = v * f) := by
  rcases hm : depthMatch s with _ | ⟨v, u⟩
  · constructor
    · simp [parse_depth, hm]
    · intro d hd
      simp [parse_depth, hm] at hd
  · rcases hu : unitToCm u with _ | f
    · constructor
      · simp [parse_depth, hm, hu]
      · intro d hd
        simp [parse_depth, hm, hu] at hd
  
    · by_cases hden : (v * f).den = 1
      · have hcast : (((v * f).num : ℤ) : ℚ) = v * f := (Rat.den_eq_one_iff _).mp hden
        constructor
        · cases cp with
          | false =>
            simp only [parse_depth, hm, hu, if_pos hden, Bool.false_and,
              if_neg Bool.false_ne_true]
            constructor
            · intro _
              exact ⟨v, u, f, rfl, hu, hden, by simp⟩
            · intro _
              exact ⟨(v * f).num, rfl⟩
          | true =>
            by_cases hnum : (v * f).num ≤ 0
            · simp only [parse_depth, hm, hu, if_pos hden, Bool.true_and,
                decide_eq_true_eq]
              rw [if_pos (by simpa using hnum)]
              constructor
              · rintro ⟨d, hd⟩
                cases hd
              · rintro ⟨v', u', f', hvu, hu', hden', hpos⟩
                obtain ⟨rfl, rfl⟩ : v' = v ∧ u' = u := by
                  simpa [Prod.ext_iff] using hvu.symm
                rw [hu] at hu'
                obtain rfl : f' = f := by simpa using hu'.symm
                exact absurd (hpos (by trivial)) (by omega)
            · simp only [parse_depth, hm, hu, if_pos hden, Bool.true_and,
                decide_eq_true_eq]
              rw [if_neg (by simpa using hnum)]
              constructor
              · intro _
                exact ⟨v, u, f, rfl, hu, hden, fun _ => by omega⟩
              · intro _
                exact ⟨(v * f).num, rfl⟩
        · intro d hd
          refine ⟨v, u, f, rfl, hu, ?_⟩
          simp only [parse_depth, hm, hu, if_pos hden] at hd
          rcases h : cp && decide ((v * f).num ≤ 0) with _ | _
          · rw [h, if_neg (by simp)] at hd
            cases hd
            exact hcast
          · rw [h, if_pos rfl] at hd
            cases hd
      · constructor
        · simp only [parse_depth, hm, hu, if_neg hden]
          constructor
          · rintro ⟨d, hd⟩
            cases hd
          · rintro ⟨v', u', f', hvu, hu', hden', _⟩
            obtain ⟨rfl, rfl⟩ : v' = v ∧ u' = u := by
              simpa [Prod.ext_iff] using hvu.symm
            rw [hu] at hu'
            obtain rfl : f' = f := by simpa using hu'.symm
            exact (hden hden').elim
        · intro d hd
          simp only [parse_depth, hm, hu, if_neg hden] at hd
          cases hd

/-- Witness for C7: `"152cm"` with `check_positive` set parses to 152, whose
value equals the matched 152 centimeters. -/
theorem parse_depth_ok_iff_witness :
    ∃ v u f, depthMatch "152cm" = some (v, u) ∧ unitToCm u = some f ∧
      ((152 : ℤ) : ℚ) = v * f :=
  (parse_depth_ok_iff "152cm" true).2 152 (by
    have h : depthMatch "152cm" =
        some ((1 : ℚ) * ((152 : ℕ) : ℚ) * (10:ℚ)^(0:ℤ), "cm") := rfl
    simp only [parse_depth, h, unitToCm]
    norm_num)
